import Mathlib

/-!
Verification of the bookkeeper repository layer
(`bookkeeper/repository/sqlite_repository.py`) and of the tree builder
(`bookkeeper/view/tree_view.py`), as a shallow embedding in Lean 4.

Modelling conventions:
* A stored scalar is a `Value`: either an SQLite INTEGER (`vint`) or a TEXT
  (`vtext`).  These are the two semantic types of the data model.
* A table is the ordered list of its rows (SQLite iterates rows of this
  schema in rowid insertion order); each row carries the non-pk column
  values in declared field order plus the `pk` rowid.
* SQL statements are embedded by their effect on that list.  Column
  affinity (SQLite converts a TEXT value that is a well-formed integer
  literal into an INTEGER when stored in an INTEGER-affinity column, and
  renders an INTEGER as its decimal text in a TEXT-affinity column) is
  modelled by `applyAffinity`; the UPDATE statement interpolates Python
  `str(value)` into a quoted SQL text literal, which is modelled by
  `Value.vtext (pyStr v)` passed through the affinity conversion.
* Python runtime errors are modelled by `Except RepoError`:
  `ValueError` from `add`/`update` as `invalidState`, `KeyError` from
  `delete` as `notFound`, `AttributeError` from `getattr` as `attrError`.
-/

/-- A scalar value as stored by the repository: SQLite INTEGER or TEXT. -/
inductive Value where
  | vint : Int → Value
  | vtext : String → Value
deriving DecidableEq, Repr

/-- True exactly on INTEGER values. -/
def Value.isInt : Value → Bool
  | .vint _ => true
  | .vtext _ => false

/-- True exactly on TEXT values. -/
def Value.isText : Value → Bool
  | .vint _ => false
  | .vtext _ => true

/-- Does `pre` occur as a prefix of `l`?  (List-level helper for the
substring test used by `type_check` and by affinity deduction.) -/
def prefixAt : List Char → List Char → Bool
  | [], _ => true
  | _ :: _, [] => false
  | c :: cs, e :: es => c == e && prefixAt cs es

/-- Does `pat` occur as a contiguous substring of `l`? -/
def occursIn (pat : List Char) : List Char → Bool
  | [] => prefixAt pat []
  | c :: cs => prefixAt pat (c :: cs) || occursIn pat cs

/-- String containment test: models Python `s.find(pat) != -1`. -/
def containsSub (s pat : String) : Bool := occursIn pat.data s.data

/-- Digit character to its value (inverse of `Nat.digitChar` below 10). -/
def charDigit (c : Char) : Nat := c.toNat - 48

/-- Canonical decimal rendering of a natural number, as produced by
Python `str` on a nonnegative int. -/
def natToStr (n : Nat) : String :=
  if n = 0 then "0" else String.mk (((Nat.digits 10 n).map Nat.digitChar).reverse)

/-- Canonical decimal rendering of an integer, as produced by Python
`str` on an int. -/
def intToStr (n : Int) : String :=
  if n < 0 then String.mk ('-' :: (natToStr n.natAbs).data) else natToStr n.natAbs

/-- Python `str()` of a stored scalar. -/
def pyStr : Value → String
  | .vint n => intToStr n
  | .vtext s => s

/-- Parse a (nonempty, all-digit) character list as a natural number;
models the numeric part of the integer literals SQLite recognizes. -/
def natListParse? (cs : List Char) : Option Nat :=
  if cs ≠ [] ∧ cs.all (fun c => c.isDigit) then
    some (Nat.ofDigits 10 ((cs.map charDigit).reverse))
  else none

/-- Parse a string as a natural number. -/
def strToNat? (s : String) : Option Nat := natListParse? s.data

/-- Parse a character list as an optionally minus-signed integer literal;
models the shape of integer text SQLite converts under INTEGER affinity. -/
def intListParse? : List Char → Option Int
  | [] => none
  | c :: rest =>
    if c = '-' then
      match natListParse? rest with
      | some k => some (-(k : Int))
      | none => none
    else
      match natListParse? (c :: rest) with
      | some k => some ((k : Int))
      | none => none

/-- Parse a string as an integer literal. -/
def strToInt? (s : String) : Option Int := intListParse? s.data

/-- Embeds `type_check` of `SQLiteRepository.__init__`
(`sqlite_repository.py` lines 39-44): a declared type whose string form
contains the substring `int` maps to an INTEGER column, anything else to
a TEXT column. -/
def type_check (val : String) : String :=
  if containsSub val "int" then "INTEGER" else "TEXT"

/-- SQLite column affinity conversion applied when a value is stored in a
column whose declared SQL type is `ty`: a declared type containing `INT`
has INTEGER affinity (converts well-formed integer text to an integer);
the TEXT columns produced by `type_check` have TEXT affinity (render an
integer as its decimal text). -/
def applyAffinity (ty : String) (v : Value) : Value :=
  if containsSub ty "INT" then
    match v with
    | .vint n => .vint n
    | .vtext s =>
      match strToInt? s with
      | some n => .vint n
      | none => .vtext s
  else
    match v with
    | .vint n => .vtext (intToStr n)
    | .vtext s => .vtext s

/-- A value conforms to a column whose declared SQL type is `ty` when it
is an INTEGER for INTEGER-affinity columns and a TEXT otherwise. -/
def typedFor (ty : String) (v : Value) : Bool :=
  if containsSub ty "INT" then v.isInt else v.isText

/-- The single-quote character of SQL string literals. -/
def sqlQuote : Char := Char.ofNat 39

/-- Re-lexing of the single-quoted SQL literal that `update` builds by
interpolating `str(value)` (`sqlite_repository.py` line 137): inside a
quoted literal SQLite reads a doubled quote as one escaped quote, while
an isolated quote terminates the literal early and leaves trailing
garbage, so the whole UPDATE statement is malformed and `sqlite3`
raises `OperationalError`; `none` models that error. -/
def unquoteSql? : List Char → Option (List Char)
  | [] => some []
  | [c] =>
    if c = sqlQuote then none
    else
      match unquoteSql? [] with
      | some out => some (c :: out)
      | none => none
  | c :: c2 :: rest =>
    if c = sqlQuote then
      if c2 = sqlQuote then
        match unquoteSql? rest with
        | some out => some (c :: out)
        | none => none
      else none
    else
      match unquoteSql? (c2 :: rest) with
      | some out => some (c :: out)
      | none => none

/-- The value the quoted interpolation of `update` stores into a column
of declared SQL type `ty`: the literal around `str(v)` is re-lexed
(`none` on a malformed statement) and the surviving text goes through
column affinity. -/
def updateStored? (ty : String) (v : Value) : Option Value :=
  match unquoteSql? (pyStr v).data with
  | none => none
  | some cs => some (applyAffinity ty (Value.vtext (String.mk cs)))

/-- The stored values of one UPDATE across the columns (the statement
fails as a whole when any interpolated literal is malformed). -/
def storedVals? : List String → List Value → Option (List Value)
  | [], _ => some []
  | _, [] => some []
  | ty :: tys, v :: vs =>
    match updateStored? ty v with
    | none => none
    | some w =>
      match storedVals? tys vs with
      | none => none
      | some ws => some (w :: ws)

/-- The Python string form of the value contains no single quote (for
integers this always holds; see `pyStr_quote_free`). -/
def quoteFreeVal : Value → Bool
  | .vint _ => true
  | .vtext s => s.data.all (fun c => decide (c ≠ sqlQuote))

/-- A model class declaration: `get_annotations(cls, eval_str=True)` as an
ordered association of field name to the string form of its declared type
(Python renders the annotation `int` as a string containing `int`), with
the distinguished `pk` entry included; plus `classAttrs`, the names of
the class-level attributes that are not data fields (methods and
inherited dunders such as `__class__`), which Python `getattr` resolves
when no instance attribute matches. -/
structure ModelDecl where
  annots : List (String × String)
  classAttrs : List String
deriving DecidableEq, Repr

/-- The non-pk fields of the model, in declared order: embeds
`self.fields = get_annotations(...)` followed by `self.fields.pop('pk')`
(`sqlite_repository.py` lines 33-34). -/
def ModelDecl.fields (m : ModelDecl) : List (String × String) :=
  m.annots.filter (fun kv => kv.1 ≠ "pk")

/-- The column declarations of the created table, in order: embeds lines
36-48 of `sqlite_repository.py` (`keys`, `vals`, `type_check`, the joined
`names` list, and the appended `pk INTEGER PRIMARY KEY`). -/
def columnDefs (m : ModelDecl) : List String :=
  List.zipWith (fun k v => k ++ " " ++ v)
      (m.fields.map Prod.fst) ((m.fields.map Prod.snd).map type_check)
    ++ ["pk INTEGER PRIMARY KEY"]

/-- Spec-side column list, following the words of claim C2: `Ti'` is
`INTEGER` exactly when the name of the declared type contains the
substring `integer`, else `TEXT`; the `pk` field is excluded from the
inferred set and appended as `pk INTEGER PRIMARY KEY`. -/
def specColumnDefs (m : ModelDecl) : List String :=
  (m.annots.filter (fun kv => kv.1 ≠ "pk")).map
      (fun kv => kv.1 ++ " " ++ (if containsSub kv.2 "integer" then "INTEGER" else "TEXT"))
    ++ ["pk INTEGER PRIMARY KEY"]

/-- Spec-side column list amended to the code's actual policy: `INTEGER`
exactly when the declared type's string form contains the substring
`int`. -/
def specColumnDefsInt (m : ModelDecl) : List String :=
  (m.annots.filter (fun kv => kv.1 ≠ "pk")).map
      (fun kv => kv.1 ++ " " ++ (if containsSub kv.2 "int" then "INTEGER" else "TEXT"))
    ++ ["pk INTEGER PRIMARY KEY"]

/-- The SQL types of the non-pk columns, in declared order. -/
def colTypes (m : ModelDecl) : List String :=
  (m.fields.map Prod.snd).map type_check

/-- One stored row: the non-pk column values in declared field order,
plus the `pk` rowid. -/
structure Row where
  vals : List Value
  pk : Int
deriving DecidableEq, Repr

/-- A table is its list of rows in rowid insertion order. -/
abbrev Table := List Row

/-- A Python model instance: its `pk` attribute plus its other attributes
as an ordered name-value association. -/
structure PyObj where
  pk : Int
  attrs : List (String × Value)
deriving DecidableEq, Repr

/-- First-match lookup of an attribute name (attribute names on a Python
object are unique, so first match is the match). -/
def lookupAttr (name : String) : List (String × Value) → Option Value
  | [] => none
  | kv :: rest => if kv.1 = name then some kv.2 else lookupAttr name rest

/-- What Python `getattr` can resolve on a model instance: a scalar data
value, or an opaque class-level attribute (a method or dunder), which is
never equal to any stored scalar. -/
inductive PyAttr where
  | val : Value → PyAttr
  | classAttr : String → PyAttr
deriving DecidableEq, Repr

/-- Python `getattr(obj, name)` on an instance of the model class `m`:
the instance dictionary (data fields, then the `pk` attribute) is
consulted first, then the class attributes (methods and inherited
dunders); `none` models `AttributeError`. -/
def PyObj.getattr (m : ModelDecl) (o : PyObj) (name : String) : Option PyAttr :=
  match lookupAttr name o.attrs with
  | some v => some (PyAttr.val v)
  | none =>
    if name = "pk" then some (PyAttr.val (Value.vint o.pk))
    else if name ∈ m.classAttrs then some (PyAttr.classAttr name) else none

/-- Rebuild a model instance from a fetched row: embeds the
`obj = self.cls(); setattr(obj, names[i], tuple_obj[i])` loop of `get`
and `get_all` (`sqlite_repository.py` lines 92-96 and 114-119), which
assigns the declared fields positionally and then `pk`. -/
def rowToObj (m : ModelDecl) (r : Row) : PyObj :=
  { pk := r.pk, attrs := List.zip (m.fields.map Prod.fst) r.vals }

/-- The rowid SQLite assigns to a fresh INSERT into an
`INTEGER PRIMARY KEY` table: one more than the largest rowid in use
(1 on an empty table). -/
def nextPk (t : Table) : Int := (t.map Row.pk).foldr max 0 + 1

/-- First row with the given pk: embeds
`SELECT * FROM ... WHERE pk = {pk}` followed by `fetchone()`. -/
def fetchRow (pk : Int) : Table → Option Row
  | [] => none
  | row :: rest => if row.pk = pk then some row else fetchRow pk rest

/-- Embeds `DELETE FROM ... WHERE pk = {pk}`: drops every row whose
rowid matches. -/
def removeRows (pk : Int) : Table → Table
  | [] => []
  | row :: rest => if row.pk = pk then removeRows pk rest else row :: removeRows pk rest

/-- Embeds `UPDATE ... SET f1 = v1, ... WHERE pk = {pk}`: every matching
row gets the new non-pk column values, every other row is untouched. -/
def updateRows (pk : Int) (newvals : List Value) : Table → Table
  | [] => []
  | row :: rest =>
    (if row.pk = pk then Row.mk newvals row.pk else row) :: updateRows pk newvals rest

/-- Error taxonomy of the embedding (spec section 7): `invalidState` is
the `ValueError` of `add`/`update`, `notFound` the `KeyError` of
`delete`, `attrError` a Python `AttributeError`, `sqlError` the
`sqlite3.OperationalError` raised when the interpolated UPDATE
statement is malformed, and `bindError` the `sqlite3` error for a
non-scalar (class-attribute) value reaching parameter binding
(unreachable for conforming records). -/
inductive RepoError where
  | invalidState
  | notFound
  | attrError
  | sqlError
  | bindError
deriving DecidableEq, Repr

instance {e a : Type} [DecidableEq e] [DecidableEq a] : DecidableEq (Except e a)
  | .error x, .error y =>
    if h : x = y then .isTrue (by rw [h])
    else .isFalse (fun hc => h (Except.error.inj hc))
  | .error _, .ok _ => .isFalse (fun hc => Except.noConfusion hc)
  | .ok _, .error _ => .isFalse (fun hc => Except.noConfusion hc)
  | .ok x, .ok y =>
    if h : x = y then .isTrue (by rw [h])
    else .isFalse (fun hc => h (Except.ok.inj hc))

/-- Left-to-right evaluation of `tuple(getattr(obj, x) for x in
self.fields.keys())`: the first missing attribute raises, and a
class-level attribute (not a scalar) cannot be bound as a parameter. -/
def fetchVals (m : ModelDecl) (o : PyObj) :
    List (String × String) → Except RepoError (List Value)
  | [] => .ok []
  | kv :: rest =>
    match PyObj.getattr m o kv.1 with
    | none => .error .attrError
    | some (.classAttr _) => .error .bindError
    | some (.val v) =>
      match fetchVals m o rest with
      | .error e => .error e
      | .ok vs => .ok (v :: vs)

/-- Left-to-right short-circuit evaluation of
`all(getattr(obj, attr) == where[attr] for attr in where.keys())`:
a missing attribute raises only if every earlier conjunct held, and a
resolved class attribute compares unequal to any scalar filter value. -/
def checkWhere (m : ModelDecl) (o : PyObj) :
    List (String × Value) → Except RepoError Bool
  | [] => .ok true
  | kv :: rest =>
    match PyObj.getattr m o kv.1 with
    | none => .error .attrError
    | some (.classAttr _) => .ok false
    | some (.val w) => if w = kv.2 then checkWhere m o rest else .ok false

/-- The filtering list comprehension of `get_all`
(`sqlite_repository.py` lines 122-126), evaluated object by object. -/
def filterWhere (m : ModelDecl) (w : List (String × Value)) :
    List PyObj → Except RepoError (List PyObj)
  | [] => .ok []
  | o :: rest =>
    match checkWhere m o w with
    | .error e => .error e
    | .ok b =>
      match filterWhere m w rest with
      | .error e => .error e
      | .ok objs => .ok (if b then o :: objs else objs)

/-- Embeds `SQLiteRepository.__init__` (`sqlite_repository.py` lines
22-53): infers the column declarations, then `DROP TABLE IF EXISTS`
followed by `CREATE TABLE`, so whatever table contents existed before
are discarded and the repository starts on an empty table. -/
def SQLiteRepository.construct (m : ModelDecl) (prior : Table) : List String × Table :=
  (columnDefs m, ([] : Table))

/-- Embeds `SQLiteRepository.add` (`sqlite_repository.py` lines 55-73):
reject a nonzero `pk`, read the declared fields off the object, INSERT
them (column affinity applies), assign `cur.lastrowid` onto `obj.pk` and
return it.  The result carries the new table, the mutated object and the
returned pk. -/
def SQLiteRepository.add (m : ModelDecl) (t : Table) (o : PyObj) :
    Except RepoError (Table × PyObj × Int) :=
  if o.pk ≠ 0 then .error .invalidState
  else
    match fetchVals m o m.fields with
    | .error e => .error e
    | .ok vals =>
      .ok (t ++ [Row.mk (List.zipWith applyAffinity (colTypes m) vals) (nextPk t)],
           { o with pk := nextPk t }, nextPk t)

/-- Embeds `SQLiteRepository.get` (`sqlite_repository.py` lines 75-96):
fetch the row with the given pk, `None` when absent, else a freshly
built instance populated positionally. -/
def SQLiteRepository.get (m : ModelDecl) (t : Table) (pk : Int) : Option PyObj :=
  (fetchRow pk t).map (rowToObj m)

/-- Embeds `SQLiteRepository.get_all` (`sqlite_repository.py` lines
98-127): map every row to an instance in storage order; with no filter
return them all, otherwise keep those satisfying every filter entry. -/
def SQLiteRepository.get_all (m : ModelDecl) (t : Table)
    (filt : Option (List (String × Value))) : Except RepoError (List PyObj) :=
  match filt with
  | none => .ok (t.map (rowToObj m))
  | some w => filterWhere m w (t.map (rowToObj m))

/-- Embeds `SQLiteRepository.update` (`sqlite_repository.py` lines
129-144): reject pk 0, then `UPDATE ... SET name = '{str(value)}' ...`,
so each stored value is the Python string form of the in-memory value
wrapped in a single-quoted SQL literal: re-lexing that literal fails
(`OperationalError`) when the text holds an isolated quote, and the
surviving text is re-interpreted under the column's affinity. -/
def SQLiteRepository.update (m : ModelDecl) (t : Table) (o : PyObj) :
    Except RepoError Table :=
  if o.pk = 0 then .error .invalidState
  else
    match fetchVals m o m.fields with
    | .error e => .error e
    | .ok vals =>
      match storedVals? (colTypes m) vals with
      | none => .error .sqlError
      | some newvals => .ok (updateRows o.pk newvals t)

/-- Embeds `SQLiteRepository.delete` (`sqlite_repository.py` lines
146-159): `KeyError` when `get` finds nothing, else DELETE the row. -/
def SQLiteRepository.delete (m : ModelDecl) (t : Table) (pk : Int) :
    Except RepoError Table :=
  match SQLiteRepository.get m t pk with
  | none => .error .notFound
  | some _ => .ok (removeRows pk t)

/-- The object lists exactly the declared non-pk fields, in declared
order (what a default-constructed dataclass instance of the model
satisfies). -/
abbrev conforms (m : ModelDecl) (o : PyObj) : Prop :=
  o.attrs.map Prod.fst = m.fields.map Prod.fst

/-- Every attribute value conforms to its column's declared SQL type
(the "valid record" of the spec: integer fields hold integers, text
fields hold text). -/
abbrev WellTyped (m : ModelDecl) (o : PyObj) : Prop :=
  ∀ p ∈ List.zip (colTypes m) (o.attrs.map Prod.snd), typedFor p.1 p.2 = true

/-- No attribute value of the object contains a single quote in its
Python string form, so every interpolated UPDATE literal re-lexes to
the value itself. -/
abbrev QuoteFree (o : PyObj) : Prop :=
  ∀ kv ∈ o.attrs, quoteFreeVal kv.2 = true

/-- One input record of the tree builder: `unique_id`, `parent_id`, then
the display attributes (the dict values after the first two keys, each
rendered with `str`). -/
structure TRec where
  unique_id : Int
  parent_id : Int
  attrs : List String
deriving DecidableEq, Repr

/-- The working state of `TreeView.import_data` (`tree_view.py` lines
54-79): the deque of unprocessed records, the `seen` key set, and the
tree built so far.  The Qt item tree is accounted for by which parent
each record's row was appended under, in append order: `rootChildren`
are the rows appended under the invisible root, `childAttach` records a
row appended under the node of the record whose `unique_id` is the first
component. -/
structure TreeState where
  queue : List TRec
  seen : List Int
  rootChildren : List TRec
  childAttach : List (Int × TRec)
deriving DecidableEq, Repr

/-- One iteration of the `while values:` loop of `import_data`: pop the
front; attach under the root when `parent_id == 0`, under the seen
parent when resolved, else push to the back of the deque. -/
def treeStep (s : TreeState) : TreeState :=
  match s.queue with
  | [] => s
  | v :: rest =>
    if v.parent_id = 0 then
      { queue := rest, seen := s.seen ++ [v.unique_id],
        rootChildren := s.rootChildren ++ [v], childAttach := s.childAttach }
    else if v.parent_id ∈ s.seen then
      { queue := rest, seen := s.seen ++ [v.unique_id],
        rootChildren := s.rootChildren,
        childAttach := s.childAttach ++ [(v.parent_id, v)] }
    else { s with queue := rest ++ [v] }

/-- The `while values:` loop with explicit fuel: `none` means the loop
has not finished within `fuel` iterations (the source loop has no other
exit, so an input on which every fuel returns `none` makes the real loop
run forever). -/
def importLoop : Nat → TreeState → Option TreeState
  | 0, _ => none
  | fuel + 1, s => if s.queue = [] then some s else importLoop fuel (treeStep s)

/-- The state at entry of `import_data`: the model was reset
(`setRowCount(0)`) and the deque seeded with the full input in order. -/
def initTree (data : List TRec) : TreeState :=
  { queue := data, seen := [], rootChildren := [], childAttach := [] }

/-- The records attached under the node with the given `unique_id`, in
append order. -/
def childrenIn (pid : Int) : List (Int × TRec) → List TRec
  | [] => []
  | pr :: rest =>
    if pr.1 = pid then pr.2 :: childrenIn pid rest else childrenIn pid rest

/-- The children of the node of record `pid` in the built tree. -/
def childrenOf (s : TreeState) (pid : Int) : List TRec :=
  childrenIn pid s.childAttach

/-- The flattening traversal of `TreeView.get_children` (`tree_view.py`
lines 81-101) restricted to what the claims observe: a preorder walk
emitting each node's `unique_id` with its 1-based level.  `fuel` bounds
the recursion depth. -/
def flattenLevels (s : TreeState) : Nat → Nat → List TRec → List (Int × Nat)
  | 0, _, _ => []
  | fuel + 1, lvl, rs =>
    rs.flatMap fun r =>
      (r.unique_id, lvl) :: flattenLevels s fuel (lvl + 1) (childrenOf s r.unique_id)

/-- Flatten the whole built tree starting from the invisible root
(children of the root are at level 1). -/
def flattenTree (s : TreeState) (fuel : Nat) : List (Int × Nat) :=
  flattenLevels s fuel 1 s.rootChildren

/-- A record the loop can attach right now: root sentinel parent, or
parent already seen. -/
def attachable (s : TreeState) (r : TRec) : Prop :=
  r.parent_id = 0 ∨ r.parent_id ∈ s.seen

/-- Every nonzero `parent_id` occurs as some record's `unique_id`
(the hypothesis of claim C8). -/
abbrev ParentClosed (data : List TRec) : Prop :=
  ∀ r ∈ data, r.parent_id ≠ 0 → ∃ q ∈ data, q.unique_id = r.parent_id

/-- `rk` is a rank function for the parent relation of the input: every
record ranks strictly above its parent.  Such a function exists exactly
when the parent relation is acyclic. -/
abbrev RankedBy (data : List TRec) (rk : TRec → Nat) : Prop :=
  ∀ r ∈ data, r.parent_id ≠ 0 → ∀ q ∈ data, q.unique_id = r.parent_id → rk q < rk r

/-- The record has been attached where it belongs: under the root for
the sentinel parent 0, under its parent's node otherwise. -/
def attachedTo (s : TreeState) (r : TRec) : Prop :=
  (r.parent_id = 0 → r ∈ s.rootChildren) ∧
  (r.parent_id ≠ 0 → r ∈ childrenOf s r.parent_id)

/-- Loop invariant of `import_data`: queued records come from the input;
every input record whose id was seen is attached where it belongs; every
input record is queued or seen. -/
def TreeInv (data : List TRec) (s : TreeState) : Prop :=
  (∀ r ∈ s.queue, r ∈ data) ∧
  (∀ r ∈ data, r.unique_id ∈ s.seen → attachedTo s r) ∧
  (∀ r ∈ data, r ∈ s.queue ∨ r.unique_id ∈ s.seen)

/-- The loop finishes from state `s` with the invariant intact and an
empty queue. -/
def Terminates (data : List TRec) (s : TreeState) : Prop :=
  ∃ f s', importLoop f s = some s' ∧ TreeInv data s' ∧ s'.queue = []

/-- A representative set of class-level attribute names every Python
class resolves (inherited dunders), as carried by the sample models. -/
def dunderNames : List String :=
  ["__class__", "__delattr__", "__dict__", "__eq__", "__init__", "__repr__"]

/-- Sample model: an Expense-like class with a text field, an integer
field, and the `pk`, as rendered by `get_annotations`. -/
def mSample : ModelDecl := ⟨[("name", "str"), ("amount", "int"), ("pk", "int")], dunderNames⟩

/-- Sample model with one integer field, used by the counterexamples:
the declared type string `int` contains `int` but not `integer`. -/
def mAmount : ModelDecl := ⟨[("amount", "int"), ("pk", "int")], dunderNames⟩

/-- Sample model with one text field, used to exercise the quoted
interpolation of `update`. -/
def mName : ModelDecl := ⟨[("name", "str"), ("pk", "int")], dunderNames⟩

/-- A table of `mName` with one stored row. -/
def tName : Table := [Row.mk [Value.vtext "x"] 1]

/-- A persisted, type-conforming `mName` record whose text value holds
an isolated single quote (the name O Brien with a quote between O and
B): interpolating it into the UPDATE statement makes the SQL
malformed. -/
def rQuote : PyObj :=
  ⟨1, [("name", Value.vtext (String.mk ['O', sqlQuote, 'B', 'r', 'i', 'e', 'n']))]⟩

/-- A fresh, valid record of `mSample` (pk 0). -/
def rSample : PyObj := ⟨0, [("name", Value.vtext "food"), ("amount", Value.vint 42)]⟩

/-- A record of `mSample` with a nonzero pk (already persisted). -/
def rFilled : PyObj := ⟨7, [("name", Value.vtext "x"), ("amount", Value.vint 1)]⟩

/-- A sample table of `mSample` with one stored row. -/
def tSample : Table := [Row.mk [Value.vtext "base", Value.vint 7] 1]

/-- A sample table of `mAmount` with one stored row. -/
def tAmount : Table := [Row.mk [Value.vint 5] 1]

/-- A persisted `mAmount` record whose integer-typed field holds the
TEXT value `12` (Python does not enforce annotations). -/
def rStrInt : PyObj := ⟨1, [("amount", Value.vtext "12")]⟩

/-- A well-typed persisted `mAmount` record. -/
def rAmount : PyObj := ⟨1, [("amount", Value.vint 9)]⟩

/-- A filter whose first key fails on the stored row and whose second
key is not an attribute: Python's `all` short-circuits before the bad
key is touched. -/
def filtShortCircuit : List (String × Value) :=
  [("amount", Value.vint 999), ("bogus", Value.vint 1)]

/-- Claim C8's sample records: node 1 under the root, nodes 2 and 3
under node 1. -/
def trNode1 : TRec := ⟨1, 0, ["a"]⟩

/-- Child of node 1. -/
def trNode2 : TRec := ⟨2, 1, ["b"]⟩

/-- Second child of node 1. -/
def trNode3 : TRec := ⟨3, 1, ["c"]⟩

/-- All six input orders of the three sample records (the claim says the
levels come out the same regardless of input order). -/
def sampleOrders : List (List TRec) :=
  [[trNode1, trNode2, trNode3], [trNode1, trNode3, trNode2],
   [trNode2, trNode1, trNode3], [trNode2, trNode3, trNode1],
   [trNode3, trNode1, trNode2], [trNode3, trNode2, trNode1]]

/-- Run `import_data` on an input order and flatten the resulting tree
(ample fuel for three records). -/
def runLevels (ord : List TRec) : List (Int × Nat) :=
  match importLoop 20 (initTree ord) with
  | some s => flattenTree s 10
  | none => []

/-- The flattened output claim C8 makes: exactly three rows, node 1 at
level 1, nodes 2 and 3 at level 2. -/
def levelsOk (l : List (Int × Nat)) : Bool :=
  l.length == 3 && l.contains (1, 1) && l.contains (2, 2) && l.contains (3, 2)

/-- A record whose nonzero parent id (5) never occurs as a `unique_id`:
the orphan input of claim C9. -/
def orphanRec : TRec := ⟨1, 5, ["x"]⟩

/-- Half of a two-cycle: parent of node 1 is node 2. -/
def cycRecA : TRec := ⟨1, 2, ["a"]⟩

/-- Other half of the two-cycle: parent of node 2 is node 1. -/
def cycRecB : TRec := ⟨2, 1, ["b"]⟩

theorem charDigit_digitChar : ∀ d < 10, charDigit (Nat.digitChar d) = d := by decide

theorem isDigit_digitChar : ∀ d < 10, (Nat.digitChar d).isDigit = true := by decide

theorem natToStr_data_of_ne (n : Nat) (h : n ≠ 0) :
    (natToStr n).data = ((Nat.digits 10 n).map Nat.digitChar).reverse := by
  simp [natToStr, h]

theorem natToStr_ne_nil (n : Nat) : (natToStr n).data ≠ [] := by
  by_cases h : n = 0
  · subst h; decide
  · rw [natToStr_data_of_ne n h]
    simp [Nat.digits_ne_nil_iff_ne_zero, h]

theorem natToStr_all_digits (n : Nat) : ∀ c ∈ (natToStr n).data, c.isDigit = true := by
  by_cases h : n = 0
  · subst h; decide
  · rw [natToStr_data_of_ne n h]
    intro c hc
    rw [List.mem_reverse] at hc
    obtain ⟨d, hd, rfl⟩ := List.mem_map.mp hc
    exact isDigit_digitChar d (Nat.digits_lt_base (by norm_num) hd)

theorem parse_natToStr (n : Nat) : natListParse? (natToStr n).data = some n := by
  by_cases h : n = 0
  · subst h; decide
  · rw [natListParse?,
      if_pos ⟨natToStr_ne_nil n, List.all_eq_true.mpr (natToStr_all_digits n)⟩]
    congr 1
    rw [natToStr_data_of_ne n h, List.map_reverse, List.reverse_reverse, List.map_map]
    have hcd : ∀ d ∈ Nat.digits 10 n, (charDigit ∘ Nat.digitChar) d = d :=
      fun d hd => charDigit_digitChar d (Nat.digits_lt_base (by norm_num) hd)
    rw [List.map_congr_left hcd]
    simp [Nat.ofDigits_digits]

theorem parse_intToStr (n : Int) : strToInt? (intToStr n) = some n := by
  rcases lt_or_ge n 0 with hneg | hpos
  · have hrepr : intToStr n = String.mk ('-' :: (natToStr n.natAbs).data) := by
      simp [intToStr, hneg]
    rw [strToInt?, hrepr]
    show intListParse? ('-' :: (natToStr n.natAbs).data) = some n
    rw [intListParse?, if_pos rfl, parse_natToStr]
    show some (-(n.natAbs : Int)) = some n
    congr 1
    omega
  · have h0 : ¬ n < 0 := not_lt.mpr hpos
    have hrepr : intToStr n = natToStr n.natAbs := by simp [intToStr, h0]
    rw [strToInt?, hrepr]
    obtain ⟨c, cs, hdata⟩ := List.exists_cons_of_ne_nil (natToStr_ne_nil n.natAbs)
    have hc : c.isDigit = true :=
      natToStr_all_digits n.natAbs c (hdata ▸ List.mem_cons_self c cs)
    have hcne : c ≠ '-' := by
      intro hEq
      rw [hEq] at hc
      exact absurd hc (by decide)
    rw [hdata, intListParse?, if_neg hcne, ← hdata, parse_natToStr]
    show some ((n.natAbs : Int)) = some n
    congr 1
    omega

theorem applyAffinity_typed (ty : String) (v : Value) (h : typedFor ty v = true) :
    applyAffinity ty v = v := by
  by_cases hint : containsSub ty "INT" = true
  · cases v with
    | vint n => simp [applyAffinity, hint]
    | vtext s => simp [typedFor, hint, Value.isInt] at h
  · cases v with
    | vint n => simp [typedFor, hint, Value.isText] at h
    | vtext s => simp [applyAffinity, hint]

theorem applyAffinity_pyStr_typed (ty : String) (v : Value) (h : typedFor ty v = true) :
    applyAffinity ty (Value.vtext (pyStr v)) = v := by
  by_cases hint : containsSub ty "INT" = true
  · cases v with
    | vint n => simp [applyAffinity, hint, pyStr, parse_intToStr]
    | vtext s => simp [typedFor, hint, Value.isInt] at h
  · cases v with
    | vint n => simp [typedFor, hint, Value.isText] at h
    | vtext s => simp [applyAffinity, hint, pyStr]

theorem lookupAttr_of_nodup (l : List (String × Value)) (kv : String × Value)
    (hnd : (l.map Prod.fst).Nodup) (hm : kv ∈ l) : lookupAttr kv.1 l = some kv.2 := by
  induction l with
  | nil => cases hm
  | cons hd tl ih =>
    rcases List.mem_cons.mp hm with hEq | htl
    · subst hEq
      simp [lookupAttr]
    · have hne : hd.1 ≠ kv.1 := by
        intro hcontra
        have : kv.1 ∈ tl.map Prod.fst := List.mem_map_of_mem Prod.fst htl
        rw [← hcontra] at this
        exact (List.nodup_cons.mp hnd).1 this
      rw [lookupAttr, if_neg hne]
      exact ih (List.nodup_cons.mp hnd).2 htl

theorem lookupAttr_none (k : String) (l : List (String × Value))
    (hk : k ∉ l.map Prod.fst) : lookupAttr k l = none := by
  induction l with
  | nil => rfl
  | cons hd tl ih =>
    rw [lookupAttr, if_neg, ih]
    · intro hmem
      exact hk (List.mem_cons.mpr (Or.inr hmem))
    · intro hEq
      exact hk (hEq ▸ List.mem_cons.mpr (Or.inl rfl))

theorem fieldKeys_ne_pk (m : ModelDecl) : ∀ k ∈ m.fields.map Prod.fst, k ≠ "pk" := by
  intro k hk
  obtain ⟨kv, hkv, rfl⟩ := List.mem_map.mp hk
  have := List.of_mem_filter hkv
  simpa using this

theorem conforms_length (m : ModelDecl) (o : PyObj) (h : conforms m o) :
    o.attrs.length = m.fields.length := by
  have := congrArg List.length h
  simpa using this

theorem getattr_attrs (m : ModelDecl) (o : PyObj)
    (hnd : (m.fields.map Prod.fst).Nodup) (hconf : conforms m o) :
    ∀ kv ∈ o.attrs, PyObj.getattr m o kv.1 = some (PyAttr.val kv.2) := by
  intro kv hkv
  have hknd : (o.attrs.map Prod.fst).Nodup := by rw [hconf]; exact hnd
  rw [PyObj.getattr, lookupAttr_of_nodup o.attrs kv hknd hkv]

theorem fetchVals_eq (m : ModelDecl) (o : PyObj) :
    ∀ (fields : List (String × String)) (attrs : List (String × Value)),
    attrs.map Prod.fst = fields.map Prod.fst →
    (∀ kv ∈ attrs, PyObj.getattr m o kv.1 = some (PyAttr.val kv.2)) →
    fetchVals m o fields = .ok (attrs.map Prod.snd) := by
  intro fields
  induction fields with
  | nil =>
    intro attrs hm _
    have : attrs = [] := by
      cases attrs with
      | nil => rfl
      | cons a as => simp at hm
    subst this
    rfl
  | cons f fs ih =>
    intro attrs hm hfind
    cases attrs with
    | nil => simp at hm
    | cons a as =>
      simp only [List.map_cons, List.cons.injEq] at hm
      have hga : PyObj.getattr m o f.1 = some (PyAttr.val a.2) := by
        rw [← hm.1]
        exact hfind a (List.mem_cons_self a as)
      rw [fetchVals, hga, ih as hm.2 (fun kv hkv => hfind kv (List.mem_cons_of_mem a hkv))]
      rfl

theorem zip_fst_snd {α β : Type} (l : List (α × β)) :
    List.zip (l.map Prod.fst) (l.map Prod.snd) = l := by
  induction l with
  | nil => rfl
  | cons hd tl ih => simp [List.zip, ih]

theorem zipWith_eq_self (g : String → Value → Value) :
    ∀ (tys : List String) (vs : List Value), tys.length = vs.length →
    (∀ p ∈ List.zip tys vs, g p.1 p.2 = p.2) →
    List.zipWith g tys vs = vs := by
  intro tys
  induction tys with
  | nil =>
    intro vs hlen _
    cases vs with
    | nil => rfl
    | cons v vs' => simp at hlen
  | cons ty tys' ih =>
    intro vs hlen h
    cases vs with
    | nil => simp at hlen
    | cons v vs' =>
      rw [List.zipWith]
      have hhd : g ty v = v := h (ty, v) (by simp [List.zip])
      rw [hhd, ih vs' (by simpa using hlen)
        (fun p hp => h p (by simp [List.zip] at hp ⊢; exact Or.inr hp))]

theorem mem_le_foldr_max (l : List Int) (x : Int) (hx : x ∈ l) :
    x ≤ l.foldr max 0 := by
  induction l with
  | nil => cases hx
  | cons hd tl ih =>
    rcases List.mem_cons.mp hx with hEq | htl
    · subst hEq
      exact le_max_left _ _
    · exact le_trans (ih htl) (le_max_right _ _)

theorem foldr_max_nonneg (l : List Int) : 0 ≤ l.foldr max 0 := by
  induction l with
  | nil => simp
  | cons hd tl ih => exact le_trans ih (le_max_right _ _)

theorem nextPk_pos (t : Table) : 0 < nextPk t := by
  have := foldr_max_nonneg (t.map Row.pk)
  rw [nextPk]
  omega

theorem nextPk_fresh (t : Table) : ∀ row ∈ t, row.pk ≠ nextPk t := by
  intro row hrow hcontra
  have hle : row.pk ≤ (t.map Row.pk).foldr max 0 :=
    mem_le_foldr_max _ row.pk (List.mem_map_of_mem Row.pk hrow)
  rw [hcontra, nextPk] at hle
  omega

theorem fetchRow_append_none (pk : Int) (t l : Table)
    (h : ∀ row ∈ t, row.pk ≠ pk) : fetchRow pk (t ++ l) = fetchRow pk l := by
  induction t with
  | nil => rfl
  | cons hd tl ih =>
    rw [List.cons_append, fetchRow, if_neg (h hd (List.mem_cons_self hd tl))]
    exact ih (fun row hrow => h row (List.mem_cons_of_mem hd hrow))

theorem fetchRow_none (pk : Int) (t : Table) (h : ∀ row ∈ t, row.pk ≠ pk) :
    fetchRow pk t = none := by
  induction t with
  | nil => rfl
  | cons hd tl ih =>
    rw [fetchRow, if_neg (h hd (List.mem_cons_self hd tl))]
    exact ih (fun row hrow => h row (List.mem_cons_of_mem hd hrow))

theorem removeRows_eq_filter (pk : Int) (t : Table) :
    removeRows pk t = t.filter (fun row => decide (row.pk ≠ pk)) := by
  induction t with
  | nil => rfl
  | cons hd tl ih =>
    by_cases hpk : hd.pk = pk
    · simp [removeRows, hpk, List.filter, ih]
    · simp [removeRows, hpk, List.filter, ih]

theorem mem_removeRows (pk : Int) (t : Table) (row : Row) :
    row ∈ removeRows pk t → row ∈ t ∧ row.pk ≠ pk := by
  induction t with
  | nil => intro h; cases h
  | cons hd tl ih =>
    intro h
    rw [removeRows] at h
    by_cases hpk : hd.pk = pk
    · rw [if_pos hpk] at h
      obtain ⟨h1, h2⟩ := ih h
      exact ⟨List.mem_cons_of_mem hd h1, h2⟩
    · rw [if_neg hpk] at h
      rcases List.mem_cons.mp h with hEq | htl
      · subst hEq
        exact ⟨List.mem_cons_self row tl, hpk⟩
      · obtain ⟨h1, h2⟩ := ih htl
        exact ⟨List.mem_cons_of_mem hd h1, h2⟩

theorem fetchRow_removeRows (pk : Int) (t : Table) :
    fetchRow pk (removeRows pk t) = none :=
  fetchRow_none pk (removeRows pk t) (fun row hrow => (mem_removeRows pk t row hrow).2)

theorem updateRows_eq_map (pk : Int) (nv : List Value) (t : Table) :
    updateRows pk nv t = t.map (fun row => if row.pk = pk then Row.mk nv row.pk else row) := by
  induction t with
  | nil => rfl
  | cons hd tl ih => rw [updateRows, List.map_cons, ih]

theorem updateRows_no_match (pk : Int) (nv : List Value) (t : Table)
    (h : ∀ row ∈ t, row.pk ≠ pk) : updateRows pk nv t = t := by
  induction t with
  | nil => rfl
  | cons hd tl ih =>
    rw [updateRows, if_neg (h hd (List.mem_cons_self hd tl)),
      ih (fun row hrow => h row (List.mem_cons_of_mem hd hrow))]

theorem lookupAttr_zip_some (k : String) :
    ∀ (names : List String) (vals : List Value), k ∈ names →
    names.length = vals.length →
    ∃ v, lookupAttr k (List.zip names vals) = some v := by
  intro names
  induction names with
  | nil => intro vals hk; cases hk
  | cons n ns ih =>
    intro vals hk hlen
    cases vals with
    | nil => simp at hlen
    | cons v vs =>
      by_cases hEq : n = k
      · exact ⟨v, by simp [List.zip, lookupAttr, hEq]⟩
      · have hk' : k ∈ ns := by
          rcases List.mem_cons.mp hk with h1 | h2
          · exact absurd h1.symm hEq
          · exact h2
        obtain ⟨w, hw⟩ := ih vs hk' (by simpa using hlen)
        exact ⟨w, by rw [List.zip, List.zipWith, lookupAttr, if_neg hEq]; exact hw⟩

theorem lookupAttr_zip_none (k : String) (names : List String)
    (vals : List Value) (hk : k ∉ names) :
    lookupAttr k (List.zip names vals) = none := by
  apply lookupAttr_none
  intro hmem
  obtain ⟨⟨a, b⟩, hp, hEq⟩ := List.mem_map.mp hmem
  exact hk (hEq ▸ (List.of_mem_zip hp).1)

theorem getattr_key_some (m : ModelDecl) (row : Row) (k : String)
    (hk : k ∈ m.fields.map Prod.fst ∨ k = "pk")
    (hwf : row.vals.length = m.fields.length) :
    ∃ v, PyObj.getattr m (rowToObj m row) k = some (PyAttr.val v) := by
  rcases hk with hf | hpk
  · obtain ⟨v, hv⟩ := lookupAttr_zip_some k (m.fields.map Prod.fst) row.vals hf
      (by simpa using hwf.symm)
    refine ⟨v, ?_⟩
    rw [PyObj.getattr,
      show lookupAttr k (rowToObj m row).attrs = some v from hv]
  · subst hpk
    have hnone : lookupAttr "pk" (List.zip (m.fields.map Prod.fst) row.vals) = none := by
      apply lookupAttr_zip_none
      intro hmem
      exact fieldKeys_ne_pk m "pk" hmem rfl
    refine ⟨Value.vint row.pk, ?_⟩
    simp [PyObj.getattr, rowToObj, hnone]

theorem checkWhere_eq (m : ModelDecl) (o : PyObj) :
    ∀ w : List (String × Value),
    (∀ kv ∈ w, ∃ v, PyObj.getattr m o kv.1 = some (PyAttr.val v)) →
    checkWhere m o w = .ok (w.all
      (fun kv => decide (PyObj.getattr m o kv.1 = some (PyAttr.val kv.2)))) := by
  intro w
  induction w with
  | nil => intro _; rfl
  | cons kv rest ih =>
    intro h
    obtain ⟨v, hv⟩ := h kv (List.mem_cons_self kv rest)
    have ihr := ih (fun p hp => h p (List.mem_cons_of_mem kv hp))
    by_cases hveq : v = kv.2
    · subst hveq
      simp [checkWhere, hv, ihr]
    · have hne : PyObj.getattr m o kv.1 ≠ some (PyAttr.val kv.2) := by
        rw [hv]
        intro hcontra
        exact hveq (PyAttr.val.inj (Option.some.inj hcontra))
      simp [checkWhere, hv, hveq, hne]

theorem checkWhere_missing (m : ModelDecl) (o : PyObj) (k : String) (v : Value)
    (rest : List (String × Value)) (h : PyObj.getattr m o k = none) :
    checkWhere m o ((k, v) :: rest) = .error .attrError := by
  rw [checkWhere]
  exact h ▸ rfl

theorem checkWhere_classAttr (m : ModelDecl) (o : PyObj) (k : String)
    (v : Value) (a : String) (rest : List (String × Value))
    (h : PyObj.getattr m o k = some (PyAttr.classAttr a)) :
    checkWhere m o ((k, v) :: rest) = .ok false := by
  rw [checkWhere]
  exact h ▸ rfl

theorem filterWhere_eq (m : ModelDecl) (w : List (String × Value))
    (pred : PyObj → Bool) :
    ∀ objs : List PyObj, (∀ o ∈ objs, checkWhere m o w = .ok (pred o)) →
    filterWhere m w objs = .ok (objs.filter pred) := by
  intro objs
  induction objs with
  | nil => intro _; rfl
  | cons o rest ih =>
    intro h
    rw [filterWhere, h o (List.mem_cons_self o rest),
      ih (fun p hp => h p (List.mem_cons_of_mem o hp)), List.filter_cons]

theorem filterWhere_error (m : ModelDecl) (w : List (String × Value))
    (o : PyObj) (objs : List PyObj) (e : RepoError)
    (h : checkWhere m o w = .error e) :
    filterWhere m w (o :: objs) = .error e := by
  rw [filterWhere, h]

theorem add_ok_shape (m : ModelDecl) (t : Table) (o : PyObj) (t' : Table)
    (o' : PyObj) (npk : Int)
    (h : SQLiteRepository.add m t o = Except.ok (t', o', npk)) :
    ∃ vals, t' = t ++ [Row.mk vals (nextPk t)] ∧ npk = nextPk t := by
  rw [SQLiteRepository.add] at h
  by_cases hpk : o.pk ≠ 0
  · rw [if_pos hpk] at h
    cases h
  · rw [if_neg hpk] at h
    cases hfv : fetchVals m o m.fields with
    | error e =>
      rw [hfv] at h
      cases h
    | ok vals =>
      rw [hfv] at h
      have hEq := Except.ok.inj h
      rw [Prod.mk.injEq, Prod.mk.injEq] at hEq
      exact ⟨List.zipWith applyAffinity (colTypes m) vals, hEq.1.symm, hEq.2.2.symm⟩

theorem get_after_append (m : ModelDecl) (t : Table) (vals : List Value) :
    SQLiteRepository.get m (t ++ [Row.mk vals (nextPk t)]) (nextPk t) =
      some (rowToObj m (Row.mk vals (nextPk t))) := by
  rw [SQLiteRepository.get, fetchRow_append_none (nextPk t) t _ (nextPk_fresh t),
    fetchRow, if_pos rfl]
  rfl

theorem delete_exists (m : ModelDecl) (t : Table) (pk : Int)
    (h : SQLiteRepository.get m t pk ≠ none) :
    SQLiteRepository.delete m t pk =
      Except.ok (t.filter (fun row => decide (row.pk ≠ pk))) ∧
    SQLiteRepository.get m (t.filter (fun row => decide (row.pk ≠ pk))) pk = none := by
  obtain ⟨o, ho⟩ := Option.ne_none_iff_exists'.mp h
  constructor
  · rw [SQLiteRepository.delete, ho, ← removeRows_eq_filter]
  · rw [SQLiteRepository.get, ← removeRows_eq_filter, fetchRow_removeRows]
    rfl

/-- Claim C1: for every valid record `r` with `r.pk == 0`, `add(r)`
returns a strictly positive pk distinct from every pk already stored,
assigns it onto `r` in place (the returned object is `r` with the new
pk), and a subsequent `get(r.pk)` returns a record equal to `r`
field-for-field including the assigned pk. -/
theorem C1_add_get_roundtrip (m : ModelDecl) (t : Table) (r : PyObj)
    (hnd : (m.fields.map Prod.fst).Nodup) (hconf : conforms m r)
    (hwt : WellTyped m r) (hpk : r.pk = 0) :
    0 < nextPk t ∧ (∀ row ∈ t, row.pk ≠ nextPk t) ∧
    SQLiteRepository.add m t r =
      Except.ok (t ++ [Row.mk (r.attrs.map Prod.snd) (nextPk t)],
        { r with pk := nextPk t }, nextPk t) ∧
    SQLiteRepository.get m (t ++ [Row.mk (r.attrs.map Prod.snd) (nextPk t)])
        (nextPk t) = some { r with pk := nextPk t } := by
  have hfetch : fetchVals m r m.fields = .ok (r.attrs.map Prod.snd) :=
    fetchVals_eq m r m.fields r.attrs hconf (getattr_attrs m r hnd hconf)
  have hlen : (colTypes m).length = (r.attrs.map Prod.snd).length := by
    rw [colTypes]
    simp [conforms_length m r hconf]
  have hzip : List.zipWith applyAffinity (colTypes m) (r.attrs.map Prod.snd) =
      r.attrs.map Prod.snd :=
    zipWith_eq_self applyAffinity _ _ hlen
      (fun p hp => applyAffinity_typed p.1 p.2 (hwt p hp))
  have hne0 : ¬ r.pk ≠ 0 := by simp [hpk]
  refine ⟨nextPk_pos t, nextPk_fresh t, ?_, ?_⟩
  · rw [SQLiteRepository.add, if_neg hne0, hfetch]
    show Except.ok
        (t ++ [Row.mk (List.zipWith applyAffinity (colTypes m) (r.attrs.map Prod.snd))
          (nextPk t)], { r with pk := nextPk t }, nextPk t) = _
    rw [hzip]
  · rw [get_after_append]
    have : rowToObj m (Row.mk (r.attrs.map Prod.snd) (nextPk t)) =
        { r with pk := nextPk t } := by
      rw [rowToObj]
      show PyObj.mk (nextPk t) (List.zip (m.fields.map Prod.fst) (r.attrs.map Prod.snd)) = _
      rw [← hconf, zip_fst_snd]
    rw [this]

theorem C1_witness :
    ((mSample.fields.map Prod.fst).Nodup ∧ conforms mSample rSample ∧
      WellTyped mSample rSample ∧ rSample.pk = 0) ∧
    (0 < nextPk tSample ∧ (∀ row ∈ tSample, row.pk ≠ nextPk tSample) ∧
      SQLiteRepository.add mSample tSample rSample =
        Except.ok (tSample ++ [Row.mk (rSample.attrs.map Prod.snd) (nextPk tSample)],
          { rSample with pk := nextPk tSample }, nextPk tSample) ∧
      SQLiteRepository.get mSample
          (tSample ++ [Row.mk (rSample.attrs.map Prod.snd) (nextPk tSample)])
          (nextPk tSample) = some { rSample with pk := nextPk tSample }) :=
  ⟨⟨by decide, by decide, by decide, by decide⟩,
    C1_add_get_roundtrip mSample tSample rSample (by decide) (by decide)
      (by decide) (by decide)⟩

/-- Claim C2 counterexample: for the declared type string `int` (the
Python rendering of the `int` annotation contains `int` but not
`integer`), the created column is INTEGER while the claim's
`integer`-substring policy prescribes TEXT. -/
theorem C2_counterexample :
    columnDefs mAmount ≠ specColumnDefs mAmount ∧
    columnDefs mAmount = ["amount INTEGER", "pk INTEGER PRIMARY KEY"] ∧
    specColumnDefs mAmount = ["amount TEXT", "pk INTEGER PRIMARY KEY"] := by decide

/-- Claim C2 (amended): repository construction creates the table with
columns `f1 T1', ..., fn Tn', pk INTEGER PRIMARY KEY` in declared order
with the pk field excluded from the inferred set, where `Ti'` is INTEGER
exactly when the string form of the declared type contains the substring
`int` (not `integer`), and TEXT otherwise. -/
theorem C2_schema_policy (m : ModelDecl) : columnDefs m = specColumnDefsInt m := by
  rw [columnDefs, specColumnDefsInt, ← ModelDecl.fields]
  congr 1
  generalize m.fields = l
  induction l with
  | nil => rfl
  | cons kv tl ih =>
    simp only [List.map_cons, List.zipWith_cons_cons, ih, type_check]

/-- Claim C3: `get_all(filter)` returns exactly those records of
`get_all()` whose value at every filter key equals the filter value
(equality conjunction), in the same relative order, and both
`get_all(None)` and `get_all({})` return all records in insertion
order.  Filter keys range over the record's field names: the declared
non-pk fields and `pk` itself. -/
theorem C3_get_all_filter (m : ModelDecl) (t : Table) (filt : List (String × Value))
    (hwf : ∀ row ∈ t, row.vals.length = m.fields.length)
    (hkeys : ∀ kv ∈ filt, kv.1 ∈ m.fields.map Prod.fst ∨ kv.1 = "pk") :
    SQLiteRepository.get_all m t none = Except.ok (t.map (rowToObj m)) ∧
    SQLiteRepository.get_all m t (some []) = Except.ok (t.map (rowToObj m)) ∧
    SQLiteRepository.get_all m t (some filt) =
      Except.ok ((t.map (rowToObj m)).filter
        (fun o => filt.all
          (fun kv => decide (PyObj.getattr m o kv.1 = some (PyAttr.val kv.2))))) := by
  refine ⟨rfl, ?_, ?_⟩
  · rw [SQLiteRepository.get_all,
      filterWhere_eq m [] (fun _ => true) (t.map (rowToObj m)) (fun _ _ => rfl)]
    simp
  · rw [SQLiteRepository.get_all]
    apply filterWhere_eq
    intro o ho
    obtain ⟨row, hrow, rfl⟩ := List.mem_map.mp ho
    apply checkWhere_eq
    intro kv hkv
    exact getattr_key_some m row kv.1 (hkeys kv hkv) (hwf row hrow)

theorem C3_witness :
    ((∀ row ∈ tSample, row.vals.length = mSample.fields.length) ∧
      (∀ kv ∈ [("amount", Value.vint 7), ("pk", Value.vint 1)],
        kv.1 ∈ mSample.fields.map Prod.fst ∨ kv.1 = "pk")) ∧
    (SQLiteRepository.get_all mSample tSample none =
        Except.ok (tSample.map (rowToObj mSample)) ∧
      SQLiteRepository.get_all mSample tSample (some []) =
        Except.ok (tSample.map (rowToObj mSample)) ∧
      SQLiteRepository.get_all mSample tSample
          (some [("amount", Value.vint 7), ("pk", Value.vint 1)]) =
        Except.ok ((tSample.map (rowToObj mSample)).filter
          (fun o => [("amount", Value.vint 7), ("pk", Value.vint 1)].all
            (fun kv => decide (PyObj.getattr mSample o kv.1 =
              some (PyAttr.val kv.2)))))) :=
  ⟨⟨by decide, by decide⟩,
    C3_get_all_filter mSample tSample [("amount", Value.vint 7), ("pk", Value.vint 1)]
      (by decide) (by decide)⟩

/-- Claim C4: `add` on a record with nonzero pk fails with the
`InvalidState` error (`ValueError`) before touching the table, and
`update` on a record with pk 0 fails the same way. -/
theorem C4_lifecycle_guards (m : ModelDecl) (t : Table) (r u : PyObj)
    (hr : r.pk ≠ 0) (hu : u.pk = 0) :
    SQLiteRepository.add m t r = Except.error RepoError.invalidState ∧
    SQLiteRepository.update m t u = Except.error RepoError.invalidState := by
  constructor
  · rw [SQLiteRepository.add, if_pos hr]
  · rw [SQLiteRepository.update, if_pos hu]

theorem C4_witness :
    (rFilled.pk ≠ 0 ∧ rSample.pk = 0) ∧
    (SQLiteRepository.add mSample tSample rFilled =
        Except.error RepoError.invalidState ∧
      SQLiteRepository.update mSample tSample rSample =
        Except.error RepoError.invalidState) :=
  ⟨⟨by decide, by decide⟩,
    C4_lifecycle_guards mSample tSample rFilled rSample (by decide) (by decide)⟩

/-- Claim C5: `delete(pk)` fails with the `NotFound` error (`KeyError`)
and leaves the table unchanged when no row with that pk exists; when
such a row exists it removes exactly the rows with that pk (one row,
since pks are unique), and after `add(r)` followed by `delete(r.pk)` a
`get(r.pk)` returns absent. -/
theorem C5_delete_props (m : ModelDecl) (t t2 t' : Table) (pk pk2 npk : Int)
    (r : PyObj) (r' : PyObj)
    (hmiss : SQLiteRepository.get m t pk = none)
    (hex : SQLiteRepository.get m t2 pk2 ≠ none)
    (hadd : SQLiteRepository.add m t2 r = Except.ok (t', r', npk)) :
    SQLiteRepository.delete m t pk = Except.error RepoError.notFound ∧
    (SQLiteRepository.delete m t2 pk2 =
        Except.ok (t2.filter (fun row => decide (row.pk ≠ pk2))) ∧
      SQLiteRepository.get m (t2.filter (fun row => decide (row.pk ≠ pk2))) pk2 = none) ∧
    (SQLiteRepository.delete m t' npk =
        Except.ok (t'.filter (fun row => decide (row.pk ≠ npk))) ∧
      SQLiteRepository.get m (t'.filter (fun row => decide (row.pk ≠ npk))) npk = none) := by
  obtain ⟨vals, ht', hnpk⟩ := add_ok_shape m t2 r t' r' npk hadd
  refine ⟨?_, delete_exists m t2 pk2 hex, ?_⟩
  · rw [SQLiteRepository.delete, hmiss]
  · apply delete_exists
    rw [ht', hnpk, get_after_append]
    simp

theorem C5_witness :
    (SQLiteRepository.get mSample tSample 99 = none ∧
      SQLiteRepository.get mSample tSample 1 ≠ none ∧
      SQLiteRepository.add mSample tSample rSample =
        Except.ok (tSample ++ [Row.mk [Value.vtext "food", Value.vint 42] 2],
          PyObj.mk 2 rSample.attrs, 2)) ∧
    (SQLiteRepository.delete mSample tSample 99 = Except.error RepoError.notFound ∧
      (SQLiteRepository.delete mSample tSample 1 =
          Except.ok (tSample.filter (fun row => decide (row.pk ≠ 1))) ∧
        SQLiteRepository.get mSample
          (tSample.filter (fun row => decide (row.pk ≠ 1))) 1 = none) ∧
      (SQLiteRepository.delete mSample
          (tSample ++ [Row.mk [Value.vtext "food", Value.vint 42] 2]) 2 =
          Except.ok ((tSample ++ [Row.mk [Value.vtext "food", Value.vint 42] 2]).filter
            (fun row => decide (row.pk ≠ 2))) ∧
        SQLiteRepository.get mSample
          ((tSample ++ [Row.mk [Value.vtext "food", Value.vint 42] 2]).filter
            (fun row => decide (row.pk ≠ 2))) 2 = none)) :=
  ⟨⟨by decide, by decide, by decide⟩,
    C5_delete_props mSample tSample tSample
      (tSample ++ [Row.mk [Value.vtext "food", Value.vint 42] 2]) 99 1 2
      rSample (PyObj.mk 2 rSample.attrs) (by decide) (by decide) (by decide)⟩

theorem digit_ne_quote (c : Char) (h : c.isDigit = true) : c ≠ sqlQuote := by
  intro hEq
  rw [hEq] at h
  exact absurd h (by decide)

theorem pyStr_quote_free (v : Value) (hq : quoteFreeVal v = true) :
    ∀ c ∈ (pyStr v).data, c ≠ sqlQuote := by
  cases v with
  | vtext s =>
    intro c hc
    have hall : s.data.all (fun c => decide (c ≠ sqlQuote)) = true := hq
    exact of_decide_eq_true (List.all_eq_true.mp hall c hc)
  | vint n =>
    intro c hc
    have hc2 : c ∈ (intToStr n).data := hc
    by_cases hneg : n < 0
    · simp only [intToStr, if_pos hneg] at hc2
      rcases List.mem_cons.mp hc2 with hEq | htl
      · rw [hEq]
        decide
      · exact digit_ne_quote c (natToStr_all_digits n.natAbs c htl)
    · simp only [intToStr, if_neg hneg] at hc2
      exact digit_ne_quote c (natToStr_all_digits n.natAbs c hc2)

theorem unquoteSql?_of_free :
    ∀ cs : List Char, (∀ c ∈ cs, c ≠ sqlQuote) → unquoteSql? cs = some cs := by
  intro cs
  induction cs with
  | nil => intro _; rfl
  | cons c rest ih =>
    intro h
    have hc : c ≠ sqlQuote := h c (List.mem_cons_self c rest)
    cases rest with
    | nil => simp [unquoteSql?, hc]
    | cons c2 rest2 =>
      rw [unquoteSql?, if_neg hc,
        ih (fun x hx => h x (List.mem_cons_of_mem c hx))]

theorem updateStored?_typed (ty : String) (v : Value)
    (hq : quoteFreeVal v = true) (ht : typedFor ty v = true) :
    updateStored? ty v = some v := by
  rw [updateStored?, unquoteSql?_of_free (pyStr v).data (pyStr_quote_free v hq)]
  show some (applyAffinity ty (Value.vtext (String.mk (pyStr v).data))) = some v
  rw [show String.mk (pyStr v).data = pyStr v from rfl,
    applyAffinity_pyStr_typed ty v ht]

theorem storedVals?_eq_self :
    ∀ (tys : List String) (vs : List Value), tys.length = vs.length →
    (∀ p ∈ List.zip tys vs, updateStored? p.1 p.2 = some p.2) →
    storedVals? tys vs = some vs := by
  intro tys
  induction tys with
  | nil =>
    intro vs hlen _
    cases vs with
    | nil => rfl
    | cons v vs2 => simp at hlen
  | cons ty tys2 ih =>
    intro vs hlen h
    cases vs with
    | nil => simp at hlen
    | cons v vs2 =>
      rw [storedVals?, h (ty, v) (by simp [List.zip]),
        ih vs2 (by simpa using hlen)
          (fun p hp => h p (by simp [List.zip] at hp ⊢; exact Or.inr hp))]

/-- Claim C6 counterexample: two type-conforming failure modes of the
quoted interpolation.  First, for the persisted record whose
integer-typed field holds the TEXT value `12`, `update` does not store
the record's in-memory value: the interpolated literal is converted to
the INTEGER 12 by column affinity.  Second, for a well-typed record
whose text value holds an isolated single quote, the interpolated SQL
is malformed and `update` raises `OperationalError` instead of
replacing anything. -/
theorem C6_counterexample :
    (rStrInt.pk ≠ 0 ∧
      SQLiteRepository.update mAmount tAmount rStrInt =
        Except.ok [Row.mk [Value.vint 12] 1] ∧
      SQLiteRepository.update mAmount tAmount rStrInt ≠
        Except.ok [Row.mk [Value.vtext "12"] 1]) ∧
    (rQuote.pk ≠ 0 ∧ conforms mName rQuote ∧ WellTyped mName rQuote ∧
      SQLiteRepository.update mName tName rQuote =
        Except.error RepoError.sqlError) := by decide

/-- Claim C6 (amended): for every well-typed record `r` (each field
value conforming to its declared column type) with `r.pk != 0`,
`update(r)` replaces every non-pk column of each row whose pk equals
`r.pk` with `r`'s current in-memory field values, leaves every other
row unchanged, and is a no-op (not an error) on a table in which no row
has pk equal to `r.pk`. -/
theorem C6_update_replaces (m : ModelDecl) (t t0 : Table) (r : PyObj)
    (hnd : (m.fields.map Prod.fst).Nodup) (hconf : conforms m r)
    (hwt : WellTyped m r) (hqf : QuoteFree r) (hpk : r.pk ≠ 0)
    (hnone : ∀ row ∈ t0, row.pk ≠ r.pk) :
    SQLiteRepository.update m t r =
      Except.ok (t.map (fun row =>
        if row.pk = r.pk then Row.mk (r.attrs.map Prod.snd) row.pk else row)) ∧
    SQLiteRepository.update m t0 r = Except.ok t0 := by
  have hfetch : fetchVals m r m.fields = .ok (r.attrs.map Prod.snd) :=
    fetchVals_eq m r m.fields r.attrs hconf (getattr_attrs m r hnd hconf)
  have hlen : (colTypes m).length = (r.attrs.map Prod.snd).length := by
    rw [colTypes]
    simp [conforms_length m r hconf]
  have hpt : ∀ p ∈ List.zip (colTypes m) (r.attrs.map Prod.snd),
      updateStored? p.1 p.2 = some p.2 := by
    intro p hp
    have hqv : quoteFreeVal p.2 = true := by
      have hmem : p.2 ∈ r.attrs.map Prod.snd := (List.of_mem_zip hp).2
      obtain ⟨kv, hkv, hEq⟩ := List.mem_map.mp hmem
      exact hEq ▸ hqf kv hkv
    exact updateStored?_typed p.1 p.2 hqv (hwt p hp)
  have hstored : storedVals? (colTypes m) (r.attrs.map Prod.snd) =
      some (r.attrs.map Prod.snd) :=
    storedVals?_eq_self (colTypes m) (r.attrs.map Prod.snd) hlen hpt
  constructor
  · rw [SQLiteRepository.update, if_neg hpk, hfetch]
    show (match storedVals? (colTypes m) (r.attrs.map Prod.snd) with
      | none => Except.error RepoError.sqlError
      | some newvals => Except.ok (updateRows r.pk newvals t)) = _
    rw [hstored]
    show Except.ok (updateRows r.pk (r.attrs.map Prod.snd) t) = _
    rw [updateRows_eq_map]
  · rw [SQLiteRepository.update, if_neg hpk, hfetch]
    show (match storedVals? (colTypes m) (r.attrs.map Prod.snd) with
      | none => Except.error RepoError.sqlError
      | some newvals => Except.ok (updateRows r.pk newvals t0)) = _
    rw [hstored]
    show Except.ok (updateRows r.pk (r.attrs.map Prod.snd) t0) = _
    rw [updateRows_no_match r.pk _ t0 hnone]

theorem C6_witness :
    ((mAmount.fields.map Prod.fst).Nodup ∧ conforms mAmount rAmount ∧
      WellTyped mAmount rAmount ∧ QuoteFree rAmount ∧ rAmount.pk ≠ 0 ∧
      (∀ row ∈ [Row.mk [Value.vint 3] 4], row.pk ≠ rAmount.pk)) ∧
    (SQLiteRepository.update mAmount tAmount rAmount =
        Except.ok (tAmount.map (fun row =>
          if row.pk = rAmount.pk then Row.mk (rAmount.attrs.map Prod.snd) row.pk
          else row)) ∧
      SQLiteRepository.update mAmount [Row.mk [Value.vint 3] 4] rAmount =
        Except.ok [Row.mk [Value.vint 3] 4]) :=
  ⟨⟨by decide, by decide, by decide, by decide, by decide, by decide⟩,
    C6_update_replaces mAmount tAmount [Row.mk [Value.vint 3] 4] rAmount
      (by decide) (by decide) (by decide) (by decide) (by decide) (by decide)⟩

/-- Claim C7: constructing a repository for a model type drops and
recreates the type's table, so immediately after construction
`get_all()` returns the empty list regardless of the prior table
contents. -/
theorem C7_construct_resets (m : ModelDecl) (prior : Table) :
    (SQLiteRepository.construct m prior).2 = [] ∧
    SQLiteRepository.get_all m (SQLiteRepository.construct m prior).2 none =
      Except.ok [] :=
  ⟨rfl, rfl⟩

theorem getattr_rowToObj_none (m : ModelDecl) (row : Row) (k : String)
    (hbad : k ∉ m.fields.map Prod.fst) (hnpk : k ≠ "pk")
    (hcls : k ∉ m.classAttrs) :
    PyObj.getattr m (rowToObj m row) k = none := by
  have hnone : lookupAttr k (List.zip (m.fields.map Prod.fst) row.vals) = none :=
    lookupAttr_zip_none k _ row.vals hbad
  simp [PyObj.getattr, rowToObj, hnone, hnpk, hcls]

theorem getattr_rowToObj_classAttr (m : ModelDecl) (row : Row) (k : String)
    (hbad : k ∉ m.fields.map Prod.fst) (hnpk : k ≠ "pk")
    (hcls : k ∈ m.classAttrs) :
    PyObj.getattr m (rowToObj m row) k = some (PyAttr.classAttr k) := by
  have hnone : lookupAttr k (List.zip (m.fields.map Prod.fst) row.vals) = none :=
    lookupAttr_zip_none k _ row.vals hbad
  simp [PyObj.getattr, rowToObj, hnone, hnpk, hcls]

/-- Claim C10 counterexample: two refutations on a one-row table.
First, the filter maps the name `bogus`, which is neither a declared
field nor `pk`, yet `get_all` returns the empty list instead of
raising: Python's `all` short-circuits on the failing first key
`amount` before `bogus` is evaluated.  Second, a filter whose first
(and only) key is the class attribute `__class__` — also neither a
declared field nor `pk` — makes Python `getattr` succeed through the
class-attribute fallback, so `get_all` again returns the empty list
without raising. -/
theorem C10_counterexample :
    (("bogus" ∉ mAmount.fields.map Prod.fst ∧ "bogus" ≠ "pk" ∧ tAmount ≠ [] ∧
        "bogus" ∈ filtShortCircuit.map Prod.fst) ∧
      SQLiteRepository.get_all mAmount tAmount (some filtShortCircuit) =
        Except.ok []) ∧
    (("__class__" ∉ mAmount.fields.map Prod.fst ∧ ("__class__" : String) ≠ "pk") ∧
      SQLiteRepository.get_all mAmount tAmount
        (some [("__class__", Value.vint 1)]) = Except.ok []) := by decide

/-- Claim C10 (amended): on a nonempty table, `get_all` with a filter
whose first key is neither a declared field, nor `pk`, nor an attribute
otherwise resolvable on the model class (a method or inherited dunder)
raises an attribute error; with a first key that is such a class
attribute but not a data field it raises nothing and matches no rows;
and on an empty table `get_all` returns the empty list for any
filter. -/
theorem C10_bad_filter_key (m : ModelDecl) (row : Row) (trest : Table)
    (k k2 : String) (v v2 : Value) (rest rest2 filt : List (String × Value))
    (hbad : k ∉ m.fields.map Prod.fst) (hnpk : k ≠ "pk")
    (hcls : k ∉ m.classAttrs)
    (hbad2 : k2 ∉ m.fields.map Prod.fst) (hnpk2 : k2 ≠ "pk")
    (hcls2 : k2 ∈ m.classAttrs) :
    SQLiteRepository.get_all m (row :: trest) (some ((k, v) :: rest)) =
      Except.error RepoError.attrError ∧
    SQLiteRepository.get_all m (row :: trest) (some ((k2, v2) :: rest2)) =
      Except.ok [] ∧
    SQLiteRepository.get_all m ([] : Table) (some filt) = Except.ok [] := by
  refine ⟨?_, ?_, rfl⟩
  · rw [SQLiteRepository.get_all, List.map_cons]
    apply filterWhere_error
    apply checkWhere_missing
    exact getattr_rowToObj_none m row k hbad hnpk hcls
  · have hall : ∀ o ∈ (row :: trest).map (rowToObj m),
        checkWhere m o ((k2, v2) :: rest2) = .ok ((fun _ => false) o) := by
      intro o ho
      obtain ⟨row2, hrow2, rfl⟩ := List.mem_map.mp ho
      exact checkWhere_classAttr m (rowToObj m row2) k2 v2 k2 rest2
        (getattr_rowToObj_classAttr m row2 k2 hbad2 hnpk2 hcls2)
    rw [SQLiteRepository.get_all,
      filterWhere_eq m ((k2, v2) :: rest2) (fun _ => false) _ hall]
    simp

theorem C10_witness :
    ("bogus" ∉ mAmount.fields.map Prod.fst ∧ ("bogus" : String) ≠ "pk" ∧
      "bogus" ∉ mAmount.classAttrs ∧
      "__class__" ∉ mAmount.fields.map Prod.fst ∧
      ("__class__" : String) ≠ "pk" ∧ "__class__" ∈ mAmount.classAttrs) ∧
    (SQLiteRepository.get_all mAmount tAmount
        (some [("bogus", Value.vint 1), ("amount", Value.vint 5)]) =
        Except.error RepoError.attrError ∧
      SQLiteRepository.get_all mAmount tAmount
        (some [("__class__", Value.vint 1)]) = Except.ok [] ∧
      SQLiteRepository.get_all mAmount ([] : Table)
        (some [("bogus", Value.vint 1)]) = Except.ok []) :=
  ⟨⟨by decide, by decide, by decide, by decide, by decide, by decide⟩,
    C10_bad_filter_key mAmount (Row.mk [Value.vint 5] 1) [] "bogus" "__class__"
      (Value.vint 1) (Value.vint 1) [("amount", Value.vint 5)] []
      [("bogus", Value.vint 1)] (by decide) (by decide) (by decide)
      (by decide) (by decide) (by decide)⟩

theorem mem_childrenIn (pid : Int) (r : TRec) :
    ∀ ca : List (Int × TRec), r ∈ childrenIn pid ca ↔ (pid, r) ∈ ca := by
  intro ca
  induction ca with
  | nil => simp [childrenIn]
  | cons pr rest ih =>
    obtain ⟨p, x⟩ := pr
    by_cases hp : p = pid
    · subst hp
      simp [childrenIn, List.mem_cons, ih, Prod.mk.injEq]
    · simp only [childrenIn, if_neg hp, ih, List.mem_cons, Prod.mk.injEq]
      constructor
      · intro h
        exact Or.inr h
      · rintro (⟨h1, h2⟩ | h)
        · exact absurd h1.symm hp
        · exact h

theorem attachedTo_mono (r : TRec) (s s' : TreeState)
    (h1 : ∀ x ∈ s.rootChildren, x ∈ s'.rootChildren)
    (h2 : ∀ pr ∈ s.childAttach, pr ∈ s'.childAttach)
    (h : attachedTo s r) : attachedTo s' r := by
  constructor
  · intro hp
    exact h1 r (h.1 hp)
  · intro hp
    have hmem := h.2 hp
    rw [childrenOf, mem_childrenIn] at hmem ⊢
    exact h2 _ hmem

theorem treeStep_attach (data : List TRec)
    (hnd : (data.map TRec.unique_id).Nodup)
    (v : TRec) (rest : List TRec) (sn : List Int) (rc : List TRec)
    (ca : List (Int × TRec))
    (ha : attachable (TreeState.mk (v :: rest) sn rc ca) v)
    (hinv : TreeInv data (TreeState.mk (v :: rest) sn rc ca)) :
    TreeInv data (treeStep (TreeState.mk (v :: rest) sn rc ca)) ∧
    (treeStep (TreeState.mk (v :: rest) sn rc ca)).queue = rest := by
  have hvdata : v ∈ data := hinv.1 v (List.mem_cons_self v rest)
  by_cases hp : v.parent_id = 0
  · have hstep : treeStep (TreeState.mk (v :: rest) sn rc ca) =
        TreeState.mk rest (sn ++ [v.unique_id]) (rc ++ [v]) ca := by
      simp [treeStep, hp]
    rw [hstep]
    refine ⟨⟨?_, ?_, ?_⟩, rfl⟩
    · intro r hr
      exact hinv.1 r (List.mem_cons_of_mem v hr)
    · intro r hrd hs
      rcases List.mem_append.mp hs with hold | hnew
      · exact attachedTo_mono r (TreeState.mk (v :: rest) sn rc ca) _
          (fun x hx => List.mem_append_left [v] hx) (fun pr hpr => hpr)
          (hinv.2.1 r hrd hold)
      · rw [List.mem_singleton] at hnew
        have hrv : r = v :=
          List.inj_on_of_nodup_map hnd hrd hvdata hnew
        subst hrv
        exact ⟨fun _ => List.mem_append_right rc (List.mem_singleton.mpr rfl),
          fun hne => absurd hp hne⟩
    · intro r hrd
      rcases hinv.2.2 r hrd with hq | hs
      · rcases List.mem_cons.mp hq with hEq | htl
        · exact Or.inr (List.mem_append_right sn
            (List.mem_singleton.mpr (by rw [hEq])))
        · exact Or.inl htl
      · exact Or.inr (List.mem_append_left _ hs)
  · have hseen : v.parent_id ∈ sn := ha.resolve_left hp
    have hstep : treeStep (TreeState.mk (v :: rest) sn rc ca) =
        TreeState.mk rest (sn ++ [v.unique_id]) rc
          (ca ++ [(v.parent_id, v)]) := by
      simp [treeStep, hp, hseen]
    rw [hstep]
    refine ⟨⟨?_, ?_, ?_⟩, rfl⟩
    · intro r hr
      exact hinv.1 r (List.mem_cons_of_mem v hr)
    · intro r hrd hs
      rcases List.mem_append.mp hs with hold | hnew
      · exact attachedTo_mono r (TreeState.mk (v :: rest) sn rc ca) _
          (fun x hx => hx) (fun pr hpr => List.mem_append_left _ hpr)
          (hinv.2.1 r hrd hold)
      · rw [List.mem_singleton] at hnew
        have hrv : r = v :=
          List.inj_on_of_nodup_map hnd hrd hvdata hnew
        subst hrv
        refine ⟨fun h0 => absurd h0 hp, fun _ => ?_⟩
        rw [childrenOf, mem_childrenIn]
        exact List.mem_append_right ca (List.mem_singleton.mpr rfl)
    · intro r hrd
      rcases hinv.2.2 r hrd with hq | hs
      · rcases List.mem_cons.mp hq with hEq | htl
        · exact Or.inr (List.mem_append_right sn
            (List.mem_singleton.mpr (by rw [hEq])))
        · exact Or.inl htl
      · exact Or.inr (List.mem_append_left _ hs)

theorem treeStep_rotate (v : TRec) (rest : List TRec) (sn : List Int)
    (rc : List TRec) (ca : List (Int × TRec))
    (hna : ¬ attachable (TreeState.mk (v :: rest) sn rc ca) v) :
    treeStep (TreeState.mk (v :: rest) sn rc ca) =
      TreeState.mk (rest ++ [v]) sn rc ca := by
  simp only [attachable, not_or] at hna
  simp [treeStep, hna.1, hna.2]

theorem treeInv_rotate (data : List TRec) (v : TRec) (rest : List TRec)
    (sn : List Int) (rc : List TRec) (ca : List (Int × TRec))
    (hinv : TreeInv data (TreeState.mk (v :: rest) sn rc ca)) :
    TreeInv data (TreeState.mk (rest ++ [v]) sn rc ca) := by
  refine ⟨?_, ?_, ?_⟩
  · intro r hr
    rcases List.mem_append.mp hr with h1 | h2
    · exact hinv.1 r (List.mem_cons_of_mem v h1)
    · rw [List.mem_singleton] at h2
      exact hinv.1 r (h2 ▸ List.mem_cons_self v rest)
  · intro r hrd hs
    exact attachedTo_mono r (TreeState.mk (v :: rest) sn rc ca) _
      (fun x hx => hx) (fun pr hpr => hpr) (hinv.2.1 r hrd hs)
  · intro r hrd
    rcases hinv.2.2 r hrd with h1 | h2
    · rcases List.mem_cons.mp h1 with hEq | htl
      · exact Or.inl (List.mem_append_right rest
          (List.mem_singleton.mpr hEq))
      · exact Or.inl (List.mem_append_left [v] htl)
    · exact Or.inr h2

theorem exists_min_rank (rk : TRec → Nat) :
    ∀ l : List TRec, l ≠ [] → ∃ r ∈ l, ∀ q ∈ l, rk r ≤ rk q := by
  intro l
  induction l with
  | nil => intro h; exact absurd rfl h
  | cons a tl ih =>
    intro _
    by_cases htl : tl = []
    · subst htl
      refine ⟨a, List.mem_cons_self a [], ?_⟩
      intro q hq
      rw [List.mem_singleton] at hq
      rw [hq]
    · obtain ⟨r, hr, hmin⟩ := ih htl
      by_cases hle : rk a ≤ rk r
      · refine ⟨a, List.mem_cons_self a tl, ?_⟩
        intro q hq
        rcases List.mem_cons.mp hq with hEq | hq'
        · rw [hEq]
        · exact le_trans hle (hmin q hq')
      · refine ⟨r, List.mem_cons_of_mem a hr, ?_⟩
        intro q hq
        rcases List.mem_cons.mp hq with hEq | hq'
        · rw [hEq]; omega
        · exact hmin q hq'

theorem exists_attachable (data : List TRec) (rk : TRec → Nat)
    (hc : ParentClosed data) (hrk : RankedBy data rk) (s : TreeState)
    (hinv : TreeInv data s) (hne : s.queue ≠ []) :
    ∃ v ∈ s.queue, attachable s v := by
  obtain ⟨v, hv, hmin⟩ := exists_min_rank rk s.queue hne
  refine ⟨v, hv, ?_⟩
  by_cases hp : v.parent_id = 0
  · exact Or.inl hp
  · right
    have hvdata : v ∈ data := hinv.1 v hv
    obtain ⟨q, hqdata, hqid⟩ := hc v hvdata hp
    have hrank : rk q < rk v := hrk v hvdata hp q hqdata hqid
    have hqnot : q ∉ s.queue := by
      intro hqq
      have := hmin q hqq
      omega
    rcases hinv.2.2 q hqdata with h1 | h2
    · exact absurd h1 hqnot
    · exact hqid ▸ h2

theorem terminates_attach_head (data : List TRec)
    (hnd : (data.map TRec.unique_id).Nodup)
    (v : TRec) (rest : List TRec) (sn : List Int) (rc : List TRec)
    (ca : List (Int × TRec))
    (hinv : TreeInv data (TreeState.mk (v :: rest) sn rc ca))
    (hatt : attachable (TreeState.mk (v :: rest) sn rc ca) v)
    (hsmall : ∀ s' : TreeState, TreeInv data s' →
      s'.queue.length < rest.length + 1 → Terminates data s') :
    Terminates data (TreeState.mk (v :: rest) sn rc ca) := by
  obtain ⟨hinv', hq'⟩ := treeStep_attach data hnd v rest sn rc ca hatt hinv
  obtain ⟨f, s', hloop, hinv'', hqe⟩ :=
    hsmall (treeStep (TreeState.mk (v :: rest) sn rc ca)) hinv' (by rw [hq']; simp)
  refine ⟨f + 1, s', ?_, hinv'', hqe⟩
  rw [importLoop, if_neg (by simp)]
  exact hloop

theorem get_append_left_own {α : Type} (l1 l2 : List α) :
    ∀ (j : Nat) (h1 : j < l1.length) (h2 : j < (l1 ++ l2).length),
    (l1 ++ l2).get ⟨j, h2⟩ = l1.get ⟨j, h1⟩ := by
  induction l1 with
  | nil =>
    intro j h1 _
    simp at h1
  | cons a tl ih =>
    intro j h1 h2
    cases j with
    | zero => rfl
    | succ j' =>
      have h1' : j' < tl.length := by simpa using h1
      have h2' : j' < (tl ++ l2).length := by
        simp only [List.length_append, List.length_cons] at h2 ⊢
        omega
      exact ih j' h1' h2'

theorem terminates_of_attachable_at (data : List TRec)
    (hnd : (data.map TRec.unique_id).Nodup) :
    ∀ (k : Nat) (v : TRec) (rest : List TRec) (sn : List Int)
      (rc : List TRec) (ca : List (Int × TRec)),
    TreeInv data (TreeState.mk (v :: rest) sn rc ca) →
    (∀ s' : TreeState, TreeInv data s' →
      s'.queue.length < rest.length + 1 → Terminates data s') →
    (∃ i, ∃ hi : i < (v :: rest).length, i ≤ k ∧
      attachable (TreeState.mk (v :: rest) sn rc ca) ((v :: rest).get ⟨i, hi⟩)) →
    Terminates data (TreeState.mk (v :: rest) sn rc ca) := by
  intro k
  induction k with
  | zero =>
    intro v rest sn rc ca hinv hsmall hex
    obtain ⟨i, hi, hik, hatt⟩ := hex
    have hi0 : i = 0 := Nat.le_zero.mp hik
    subst hi0
    exact terminates_attach_head data hnd v rest sn rc ca hinv hatt hsmall
  | succ k ih =>
    intro v rest sn rc ca hinv hsmall hex
    by_cases hatt : attachable (TreeState.mk (v :: rest) sn rc ca) v
    · exact terminates_attach_head data hnd v rest sn rc ca hinv hatt hsmall
    · obtain ⟨i, hi, hik, hget⟩ := hex
      cases i with
      | zero => exact absurd hget hatt
      | succ j =>
        cases rest with
        | nil =>
          simp only [List.length_cons, List.length_nil] at hi
          omega
        | cons w rest' =>
          have hrot : treeStep (TreeState.mk (v :: w :: rest') sn rc ca) =
              TreeState.mk ((w :: rest') ++ [v]) sn rc ca :=
            treeStep_rotate v (w :: rest') sn rc ca hatt
          have hinv' : TreeInv data (TreeState.mk ((w :: rest') ++ [v]) sn rc ca) :=
            treeInv_rotate data v (w :: rest') sn rc ca hinv
          have hj : j < (w :: rest').length := by
            simp only [List.length_cons] at hi ⊢
            omega
          have hj2 : j < ((w :: rest') ++ [v]).length := by
            simp only [List.length_append, List.length_cons, List.length_nil]
            simp only [List.length_cons] at hi
            omega
          have hgeteq : ((w :: rest') ++ [v]).get ⟨j, hj2⟩ =
              (v :: w :: rest').get ⟨j + 1, hi⟩ := by
            rw [get_append_left_own (w :: rest') [v] j hj hj2]
            rfl
          have hterm : Terminates data
              (TreeState.mk ((w :: rest') ++ [v]) sn rc ca) := by
            apply ih w (rest' ++ [v]) sn rc ca hinv'
            · intro s' hinvs hlen
              apply hsmall s' hinvs
              simp only [List.length_append, List.length_cons, List.length_nil] at hlen ⊢
              omega
            · refine ⟨j, ?_, by omega, ?_⟩
              · simp only [List.length_cons, List.length_append, List.length_nil]
                simp only [List.length_append, List.length_cons, List.length_nil] at hj2
                omega
              · show attachable (TreeState.mk ((w :: rest') ++ [v]) sn rc ca)
                  (((w :: rest') ++ [v]).get ⟨j, hj2⟩)
                rw [hgeteq]
                exact hget
          obtain ⟨f, s', hloop, hinvf, hqe⟩ := hterm
          refine ⟨f + 1, s', ?_, hinvf, hqe⟩
          rw [importLoop, if_neg (by simp), hrot]
          exact hloop

theorem terminates_of_inv (data : List TRec) (rk : TRec → Nat)
    (hc : ParentClosed data) (hrk : RankedBy data rk)
    (hnd : (data.map TRec.unique_id).Nodup) :
    ∀ (n : Nat) (s : TreeState), TreeInv data s → s.queue.length ≤ n →
    Terminates data s := by
  intro n
  induction n with
  | zero =>
    intro s hinv hlen
    have hq : s.queue = [] := List.length_eq_zero.mp (Nat.le_zero.mp hlen)
    exact ⟨1, s, by rw [importLoop, if_pos hq], hinv, hq⟩
  | succ n ih =>
    intro s hinv hlen
    obtain ⟨qu, sn, rc, ca⟩ := s
    cases qu with
    | nil => exact ⟨1, _, by rw [importLoop, if_pos rfl], hinv, rfl⟩
    | cons v rest =>
      obtain ⟨w, hw, hatt⟩ :=
        exists_attachable data rk hc hrk (TreeState.mk (v :: rest) sn rc ca)
          hinv (by simp)
      obtain ⟨⟨i, hi⟩, hget⟩ := List.mem_iff_get.mp hw
      apply terminates_of_attachable_at data hnd i v rest sn rc ca hinv
      · intro s' hinvs hlen'
        apply ih s' hinvs
        have hlen2 : (v :: rest).length ≤ n + 1 := hlen
        simp only [List.length_cons] at hlen2
        omega
      · exact ⟨i, hi, le_refl i, by rw [hget]; exact hatt⟩

theorem tree_attaches_all (data : List TRec) (rk : TRec → Nat)
    (hc : ParentClosed data) (hrk : RankedBy data rk)
    (hnd : (data.map TRec.unique_id).Nodup) :
    ∃ f s, importLoop f (initTree data) = some s ∧
      ∀ r ∈ data, (r.parent_id = 0 → r ∈ s.rootChildren) ∧
        (r.parent_id ≠ 0 → r ∈ childrenOf s r.parent_id) := by
  have hinit : TreeInv data (initTree data) :=
    ⟨fun r hr => hr, fun r _ hs => absurd hs (by simp [initTree]),
      fun r hr => Or.inl hr⟩
  obtain ⟨f, s', hloop, hinv', hqe⟩ :=
    terminates_of_inv data rk hc hrk hnd data.length (initTree data) hinit
      (le_refl _)
  refine ⟨f, s', hloop, ?_⟩
  intro r hr
  have hseen : r.unique_id ∈ s'.seen := by
    rcases hinv'.2.2 r hr with h1 | h2
    · rw [hqe] at h1
      cases h1
    · exact h2
  exact hinv'.2.1 r hr hseen

theorem importLoop_none_of_cycleSet (S : List TreeState)
    (hS : ∀ s ∈ S, s.queue ≠ [] ∧ treeStep s ∈ S) :
    ∀ (f : Nat) (s : TreeState), s ∈ S → importLoop f s = none := by
  intro f
  induction f with
  | zero => intro s _; rfl
  | succ f ih =>
    intro s hs
    rw [importLoop, if_neg (hS s hs).1]
    exact ih (treeStep s) (hS s hs).2

/-- Claim C8 (amended): for every input sequence in which every nonzero
`parent_id` equals some record's `unique_id`, whose ids are distinct and
whose parent relation is acyclic (witnessed by a rank function), the
tree builder terminates and attaches each record under its parent by
re-queuing records whose parent is not yet resolved; and for the
concrete input with node 1 under the root and nodes 2, 3 under node 1,
every one of the six input orders yields a flattened tree with node 1
at level 1 and nodes 2 and 3 at level 2.  (The unamended claim admits
parent cycles, on which the loop never terminates; see the
counterexample.) -/
theorem C8_tree_builder :
    (∀ (data : List TRec) (rk : TRec → Nat), ParentClosed data →
      RankedBy data rk → (data.map TRec.unique_id).Nodup →
      ∃ f s, importLoop f (initTree data) = some s ∧
        ∀ r ∈ data, (r.parent_id = 0 → r ∈ s.rootChildren) ∧
          (r.parent_id ≠ 0 → r ∈ childrenOf s r.parent_id)) ∧
    sampleOrders.all (fun ord => levelsOk (runLevels ord)) = true := by
  constructor
  · intro data rk hc hrk hnd
    exact tree_attaches_all data rk hc hrk hnd
  · decide

theorem C8_witness :
    (ParentClosed [trNode2, trNode1, trNode3] ∧
      RankedBy [trNode2, trNode1, trNode3] (fun r => r.unique_id.toNat) ∧
      ([trNode2, trNode1, trNode3].map TRec.unique_id).Nodup) ∧
    (∃ f s, importLoop f (initTree [trNode2, trNode1, trNode3]) = some s ∧
      ∀ r ∈ [trNode2, trNode1, trNode3],
        (r.parent_id = 0 → r ∈ s.rootChildren) ∧
        (r.parent_id ≠ 0 → r ∈ childrenOf s r.parent_id)) :=
  ⟨⟨by decide, by decide, by decide⟩,
    C8_tree_builder.1 [trNode2, trNode1, trNode3] (fun r => r.unique_id.toNat)
      (by decide) (by decide) (by decide)⟩

/-- Claim C8 counterexample: the two-record parent cycle satisfies the
claim's hypothesis (every nonzero `parent_id` occurs as a `unique_id`,
ids distinct), yet `import_data` re-queues both records forever: no
amount of fuel finishes the loop, so nothing is ever attached. -/
theorem C8_counterexample :
    ParentClosed [cycRecA, cycRecB] ∧
    ([cycRecA, cycRecB].map TRec.unique_id).Nodup ∧
    ¬ ∃ f s, importLoop f (initTree [cycRecA, cycRecB]) = some s := by
  refine ⟨by decide, by decide, ?_⟩
  rintro ⟨f, s, h⟩
  have hnone := importLoop_none_of_cycleSet
    [initTree [cycRecA, cycRecB], TreeState.mk [cycRecB, cycRecA] [] [] []]
    (by decide) f (initTree [cycRecA, cycRecB]) (by decide)
  rw [hnone] at h
  cases h

/-- Claim C9: the input holding one record whose nonzero `parent_id` (5)
never occurs as a `unique_id` makes `import_data` re-queue that record
forever: for no fuel does the loop finish, so the code loops
indefinitely instead of raising the orphan error the claim requires. -/
theorem C9_orphan_loops_forever :
    ¬ ∃ f s, importLoop f (initTree [orphanRec]) = some s := by
  rintro ⟨f, s, h⟩
  have hnone := importLoop_none_of_cycleSet [initTree [orphanRec]]
    (by decide) f (initTree [orphanRec]) (by decide)
  rw [hnone] at h
  cases h
